import Mathlib

/-!
# AI Image Authenticity Checker: the scan simulation of `src/App.jsx`

A shallow embedding of the `App` component: its six `useState` cells, the
classifier `determineResult`, the timer-driven sequencer `startScanning`,
`handleImageUpload` and `handleReset`, together with the browser's single-shot
timer queue on which the component's callbacks are scheduled.

Modelling conventions.

* A React render closes over the state values of that render. A callback
  created in a render therefore carries the `uploadCount` of that render; the
  embedding makes this explicit by giving `determineResult`, `startScanning`
  and `handleImageUpload` the closed-over `uploadCount` as an argument and by
  storing it in the pending callbacks.
* `String.prototype.toLowerCase` is a built-in of the host language. Every
  definition that depends on it takes it as the argument `toLowerCase`; the
  function `asciiLower` (which agrees with the built-in on ASCII file names)
  is used for concrete evaluations.
* `setX(v)` calls made inside one callback are applied together; the state
  after the callback is the state with all of them applied.
* `setTimeout(f, d)` appends `f` with due time `now + d` to the queue of
  pending timers. No code path of the component calls `clearTimeout`, so the
  only way a timer leaves the queue is by firing. Timers fire in order of due
  time, timers with equal due time in order of creation.
-/

namespace AuthenticityChecker

/-! ## Data model -/

/-- The record returned by `determineResult`: `type`, `label`, `confidence`. -/
structure Outcome where
  type : String
  label : String
  confidence : Nat
deriving DecidableEq

/-- A file picked in the file input: its `name` and the data URL that
`FileReader.readAsDataURL` delivers for it. -/
structure File where
  name : String
  dataUrl : String
deriving DecidableEq

/-- The six `useState` cells of `App` (lines 5-10). -/
structure AppState where
  selectedImage : Option String
  isScanning : Bool
  result : Option Outcome
  currentStep : Nat
  showCaption : Bool
  uploadCount : Nat
deriving DecidableEq

/-- The callbacks which the component hands to the browser, each with the
values its closure captured.

* `loaded file uploadCount`: `reader.onload` of `handleImageUpload` (line 24);
* `start filename uploadCount`: `() => startScanning(file.name)` (line 29);
* `step index`: `() => setCurrentStep(index + 1)` (lines 43-45);
* `complete filename uploadCount`: the completion callback (lines 49-62);
* `caption`: `() => setShowCaption(true)` (lines 59-61). -/
inductive Callback
  | loaded (file : File) (uploadCount : Nat)
  | start (filename : String) (uploadCount : Nat)
  | step (index : Nat)
  | complete (filename : String) (uploadCount : Nat)
  | caption
deriving DecidableEq

/-- A pending single-shot timer: the time at which it falls due and its callback. -/
structure Timer where
  due : Nat
  cb : Callback
deriving DecidableEq

/-- The component state together with the clock and the queue of pending
timers, kept in order of creation. -/
structure World where
  st : AppState
  now : Nat
  timers : List Timer
deriving DecidableEq

/-- The `analysisSteps` table (lines 13-18): `id` and `text` of the four steps. -/
def analysisSteps : List (Nat × String) :=
  [(1, "Analyzing image patterns..."),
   (2, "Checking pixel consistency..."),
   (3, "Examining metadata..."),
   (4, "Running AI detection model...")]

/-- The constant `stepDuration` of `startScanning` (line 41). -/
def stepDuration : Nat := 1500

/-- The values of the `useState` initialisers. -/
def initialState : AppState :=
  { selectedImage := none, isScanning := false, result := none,
    currentStep := 0, showCaption := false, uploadCount := 0 }

/-- The freshly mounted component: initial state, clock at zero, no timer pending. -/
def initial : World := { st := initialState, now := 0, timers := [] }

/-! ## Classifier -/

/-- The test `s.includes(kw)`: `kw` occurs in `s` as a contiguous substring. -/
def includes (s kw : String) : Bool := decide (kw.data <:+: s.data)

/-- Lower-casing of the ASCII letters, other characters unchanged. -/
def asciiLower (s : String) : String := ⟨s.data.map Char.toLower⟩

/-- The function `determineResult` (lines 65-115). `uploadCount` is the value of the state
cell in the render whose closure is executing. -/
def determineResult (toLowerCase : String → String) (uploadCount : Nat) (filename : String) :
    Outcome :=
  let lower := toLowerCase filename
  if includes lower "ai" || includes lower "generated" || includes lower "synthetic" then
    { type := "ai-generated", label := "AI Generated Detected", confidence := 94 }
  else if includes lower "edited" || includes lower "mixed" || includes lower "possibly" then
    { type := "possibly-ai", label := "Possibly AI", confidence := 67 }
  else if includes lower "real" || includes lower "human" || includes lower "authentic" then
    { type := "not-ai", label := "Not AI Generated", confidence := 91 }
  else
    let resultIndex := uploadCount % 3
    if resultIndex = 0 then
      { type := "ai-generated", label := "AI Generated Detected", confidence := 94 }
    else if resultIndex = 1 then
      { type := "not-ai", label := "Not AI Generated", confidence := 91 }
    else
      { type := "possibly-ai", label := "Possibly AI", confidence := 67 }

/-! ## Sequencer -/

/-- The function `startScanning` (lines 35-63), run at time `w.now` from a render whose
`uploadCount` is the first argument: three state updates, one phase timer per
entry of `analysisSteps`, and the completion timer. -/
def startScanning (uploadCount : Nat) (filename : String) (w : World) : World :=
  { st := { w.st with isScanning := true, result := none, currentStep := 0 },
    now := w.now,
    timers :=
      w.timers
        ++ analysisSteps.enum.map (fun p => ⟨w.now + stepDuration * p.1, Callback.step p.1⟩)
        ++ [⟨w.now + stepDuration * analysisSteps.length, Callback.complete filename uploadCount⟩] }

/-- The function `handleImageUpload` (lines 20-33), run from a render whose `uploadCount` is
the first argument. `file` is `e.target.files[0]`; the read started by
`readAsDataURL` finishes `readDelay` time units later, when `onload` runs. -/
def handleImageUpload (uploadCount : Nat) (file : Option File) (readDelay : Nat) (w : World) :
    World :=
  match file with
  | none => w
  | some f => { w with timers := w.timers ++ [⟨w.now + readDelay, Callback.loaded f uploadCount⟩] }

/-- The function `handleReset` (lines 117-126). The write to `fileInputRef.current.value` touches
the DOM only; the pending timers are not referenced. -/
def handleReset (w : World) : World :=
  { w with st := { w.st with selectedImage := none, isScanning := false, result := none,
                             currentStep := 0, showCaption := false } }

/-- The body of each scheduled callback, run at time `w.now`. -/
def fireCallback (toLowerCase : String → String) : Callback → World → World
  | Callback.loaded file uploadCount, w =>
      { w with
        st := { w.st with selectedImage := some file.dataUrl, result := none, currentStep := 0 },
        timers := w.timers ++ [⟨w.now + 500, Callback.start file.name uploadCount⟩] }
  | Callback.start filename uploadCount, w => startScanning uploadCount filename w
  | Callback.step index, w => { w with st := { w.st with currentStep := index + 1 } }
  | Callback.complete filename uploadCount, w =>
      { w with
        st := { w.st with isScanning := false,
                          result := some (determineResult toLowerCase uploadCount filename),
                          uploadCount := w.st.uploadCount + 1 },
        timers := w.timers ++ [⟨w.now + 1000, Callback.caption⟩] }
  | Callback.caption, w => { w with st := { w.st with showCaption := true } }

/-! ## Timer queue and events -/

/-- Removes the first element satisfying `p`, returning it with the remaining list. -/
def extract (p : Timer → Bool) : List Timer → Option (Timer × List Timer)
  | [] => none
  | t :: ts =>
    if p t then some (t, ts)
    else (extract p ts).map (fun r => (r.1, t :: r.2))

/-- The timer that fires next: the oldest one among those of least due time. -/
def popEarliest (ts : List Timer) : Option (Timer × List Timer) :=
  extract (fun t => ts.all (fun u => decide (t.due ≤ u.due))) ts

/-- What can happen to the mounted component.

* `tick d`: `d` time units pass, no pending timer falling due before their end;
* `fire`: the next pending timer runs (the clock moves to its due time);
* `upload file readDelay`: a `change` event of the file input, handled by the
  `handleImageUpload` of the current render;
* `reset`: `handleReset` is called;
* `start filename`: `startScanning` of the current render is called directly. -/
inductive Event
  | tick (d : Nat)
  | fire
  | upload (file : Option File) (readDelay : Nat)
  | reset
  | start (filename : String)
deriving DecidableEq

/-- One transition of the component; `none` when the event cannot occur. -/
def step (toLowerCase : String → String) (w : World) : Event → Option World
  | Event.tick d =>
      if w.timers.all (fun t => decide (w.now + d ≤ t.due)) then some { w with now := w.now + d }
      else none
  | Event.fire =>
      match popEarliest w.timers with
      | none => none
      | some (t, rest) =>
          some (fireCallback toLowerCase t.cb { w with now := max w.now t.due, timers := rest })
  | Event.upload file readDelay => some (handleImageUpload w.st.uploadCount file readDelay w)
  | Event.reset => some (handleReset w)
  | Event.start filename => some (startScanning w.st.uploadCount filename w)

/-- Runs a sequence of events, each one required to pass the check `ok` in the world
it occurs in. -/
def runWith (toLowerCase : String → String) (ok : World → Event → Bool) (w : World) :
    List Event → Option World
  | [] => some w
  | e :: es =>
    if ok w e then
      match step toLowerCase w e with
      | none => none
      | some w1 => runWith toLowerCase ok w1 es
    else none

/-- Runs a sequence of events with no restriction on the caller. -/
def run (toLowerCase : String → String) (w : World) (es : List Event) : Option World :=
  runWith toLowerCase (fun _ _ => true) w es

/-- JavaScript truthiness of the `selectedImage` cell. -/
def truthy : Option String → Bool
  | none => false
  | some s => s != ""

/-- The events the rendered page offers (lines 138-215): the file input is mounted only
while `selectedImage` is falsy, the reset button only while `selectedImage` and
`result` are truthy, and nothing in the page calls `startScanning` directly. -/
def offered (w : World) : Event → Bool
  | Event.upload _ _ => !truthy w.st.selectedImage
  | Event.reset => truthy w.st.selectedImage && w.st.result.isSome
  | Event.start _ => false
  | _ => true

/-- Holds when a callback belongs to a cycle that has not completed yet. -/
def Callback.inFlight : Callback → Bool
  | Callback.loaded _ _ => true
  | Callback.start _ _ => true
  | Callback.complete _ _ => true
  | _ => false

/-- The events of a session in which a file is chosen, or a scan started, only when no
earlier cycle is still on its way to completion. -/
def serial (w : World) : Event → Bool
  | Event.upload _ _ => w.timers.all (fun t => !t.cb.inFlight)
  | Event.start _ => w.timers.all (fun t => !t.cb.inFlight)
  | _ => true

/-- The status of the spec's `ScanState`, read off the two cells that carry it: `Scanning`
while `isScanning`, otherwise `Complete` when a result is stored, otherwise `Idle`. -/
inductive Status
  | Idle
  | Scanning
  | Complete
deriving DecidableEq

/-- The projection of the component state to its status. -/
def status (s : AppState) : Status :=
  if s.isScanning then Status.Scanning
  else if s.result.isSome then Status.Complete
  else Status.Idle


/-! ## Sample sessions -/

/-- A file whose name carries none of the nine keywords. -/
def photo : File := { name := "photo.jpg", dataUrl := "data:image/jpeg;base64,/9j/4AAQ" }

/-- A file whose name carries the keyword "ai". -/
def sample : File := { name := "test_ai_sample.png", dataUrl := "data:image/png;base64,iVBORw0K" }

/-- One uninterrupted cycle: the file is chosen and read at once, then seven timers fire in
turn: `onload`, the delayed start, the four phase advances and the completion. -/
def cycle (f : File) : List Event := Event.upload (some f) 0 :: List.replicate 7 Event.fire

/-- A second file whose name carries none of the nine keywords. -/
def holiday : File := { name := "holiday.png", dataUrl := "data:image/png;base64,iVBORw0L" }

/-- Two files chosen in quick succession, the second while the first is still being read
(each read takes 50 time units, the second choice comes 10 units after the first); then both
`onload` callbacks, the delayed start of the first file and its first phase timer fire. The
delayed start of the second file is the next timer. -/
def overlapEvents : List Event :=
  [Event.upload (some holiday) 50, Event.tick 10, Event.upload (some photo) 50,
   Event.fire, Event.fire, Event.fire, Event.fire]

/-- The worlds a run passes through, the starting one first; the list stops where an event
cannot occur. -/
def trace (toLowerCase : String → String) (w : World) : List Event → List World
  | [] => [w]
  | e :: es =>
    w :: (match step toLowerCase w e with
          | none => []
          | some w1 => trace toLowerCase w1 es)

/-- A cycle on "holiday.png", a reset 100 time units after its completion, and 100 units later
a cycle on "photo.jpg" up to its last phase advance. The completion of the second cycle is
the next timer. -/
def secondCycleEvents : List Event :=
  cycle holiday ++ [Event.tick 100, Event.reset, Event.tick 100, Event.upload (some photo) 0]
    ++ List.replicate 7 Event.fire

/-- The `uploadCount` held in a callback's closure, for the callbacks that carry one. -/
def Callback.captured : Callback → Option Nat
  | Callback.loaded _ c => some c
  | Callback.start _ c => some c
  | Callback.complete _ c => some c
  | _ => none

/-- What the page shows of a scan: the phase index, the scanning flag, the status and the
stored result. -/
def observe (w : World) : Nat × Bool × Status × Option Outcome :=
  (w.st.currentStep, w.st.isScanning, status w.st, w.st.result)

/-- Holds for the caption callback only. -/
def Callback.isCaption : Callback → Bool
  | Callback.caption => true
  | _ => false

/-- The five timers a call of `startScanning` at time `now` schedules, written out. -/
def scanQueue (now uploadCount : Nat) (filename : String) : List Timer :=
  [⟨now, Callback.step 0⟩, ⟨now + 1500, Callback.step 1⟩, ⟨now + 3000, Callback.step 2⟩,
   ⟨now + 4500, Callback.step 3⟩, ⟨now + 6000, Callback.complete filename uploadCount⟩]

/-- The view of a scan of which `k` of the five timers have fired, `r` being the result the
completion stores. -/
def viewAt (r : Outcome) (k : Nat) : Nat × Bool × Status × Option Outcome :=
  if k < 5 then (k, true, Status.Scanning, none) else (4, false, Status.Complete, some r)

/-- The states of a scan started at time `t0` of which `k` of the five timers have fired: the
timers pending, caption timers apart, are the remaining ones of the scan in their order, and
the page shows the view of stage `k`. -/
def ScanAt (toLowerCase : String → String) (t0 uploadCount : Nat) (filename : String) (k : Nat)
    (x : World) : Prop :=
  k ≤ 5
    ∧ x.timers.filter (fun t => !t.cb.isCaption) = (scanQueue t0 uploadCount filename).drop k
    ∧ observe x = viewAt (determineResult toLowerCase uploadCount filename) k

/-- Two files chosen 10 time units apart before either has been read, the first taking 6100
units to read and the second 50; then eight timers fire in turn: the `onload` and the delayed
start of the second file, its four phase advances, the `onload` of the first file and the
completion of the scan of the second. No reset occurs and the delayed start of the first
file is still pending at the end. -/
def lateLoadEvents : List Event :=
  [Event.upload (some holiday) 6100, Event.tick 10, Event.upload (some photo) 50]
    ++ List.replicate 8 Event.fire

/-! # Theorems -/

/-! ## The classifier -/

/-- Claim C1. Whenever the lower-cased file name contains "ai", "generated" or "synthetic" as a
substring, `determineResult` returns the ai-generated record with confidence 94, whatever the
upload counter and whatever else the name contains. -/
theorem determineResult_rule1 (toLowerCase : String → String) (uploadCount : Nat)
    (filename : String)
    (h : includes (toLowerCase filename) "ai" = true
      ∨ includes (toLowerCase filename) "generated" = true
      ∨ includes (toLowerCase filename) "synthetic" = true) :
    determineResult toLowerCase uploadCount filename
      = { type := "ai-generated", label := "AI Generated Detected", confidence := 94 } := by
  unfold determineResult
  rcases h with h | h | h <;> simp [h]

/-- The names "brain.png" and "test_ai_sample.png" of the claim, and "Brain_real_edited.png",
which contains "ai" only inside a word and carries keywords of rules 2 and 3 as well; rule 1
decides each time. -/
theorem determineResult_rule1_witness :
    includes (asciiLower "Brain_real_edited.png") "ai" = true
      ∧ includes (asciiLower "Brain_real_edited.png") "edited" = true
      ∧ includes (asciiLower "Brain_real_edited.png") "real" = true
      ∧ determineResult asciiLower 2 "Brain_real_edited.png"
          = { type := "ai-generated", label := "AI Generated Detected", confidence := 94 }
      ∧ determineResult asciiLower 1 "brain.png"
          = { type := "ai-generated", label := "AI Generated Detected", confidence := 94 }
      ∧ determineResult asciiLower 1 "test_ai_sample.png"
          = { type := "ai-generated", label := "AI Generated Detected", confidence := 94 } :=
  ⟨by decide, by decide, by decide,
    determineResult_rule1 asciiLower 2 "Brain_real_edited.png" (Or.inl (by decide)),
    determineResult_rule1 asciiLower 1 "brain.png" (Or.inl (by decide)),
    determineResult_rule1 asciiLower 1 "test_ai_sample.png" (Or.inl (by decide))⟩

/-- Claim C2, refuted as stated. The name "real_edited.png" contains "real" and none of "ai",
"generated", "synthetic", yet the result is the possibly-ai record: rule 2 is tried before
rule 3. -/
theorem determineResult_rule3_shadowed :
    includes (asciiLower "real_edited.png") "real" = true
      ∧ includes (asciiLower "real_edited.png") "ai" = false
      ∧ includes (asciiLower "real_edited.png") "generated" = false
      ∧ includes (asciiLower "real_edited.png") "synthetic" = false
      ∧ determineResult asciiLower 0 "real_edited.png"
          = { type := "possibly-ai", label := "Possibly AI", confidence := 67 }
      ∧ determineResult asciiLower 0 "real_edited.png"
          ≠ { type := "not-ai", label := "Not AI Generated", confidence := 91 } := by
  decide

/-- Claim C2, amended. Whenever the lower-cased file name contains "real", "human" or
"authentic" and none of the six substrings of rules 1 and 2, `determineResult` returns the
not-ai record with confidence 91, whatever the upload counter. -/
theorem determineResult_rule3 (toLowerCase : String → String) (uploadCount : Nat)
    (filename : String)
    (h3 : includes (toLowerCase filename) "real" = true
      ∨ includes (toLowerCase filename) "human" = true
      ∨ includes (toLowerCase filename) "authentic" = true)
    (hai : includes (toLowerCase filename) "ai" = false)
    (hgen : includes (toLowerCase filename) "generated" = false)
    (hsyn : includes (toLowerCase filename) "synthetic" = false)
    (hed : includes (toLowerCase filename) "edited" = false)
    (hmix : includes (toLowerCase filename) "mixed" = false)
    (hpos : includes (toLowerCase filename) "possibly" = false) :
    determineResult toLowerCase uploadCount filename
      = { type := "not-ai", label := "Not AI Generated", confidence := 91 } := by
  unfold determineResult
  rcases h3 with h | h | h <;> simp [h, hai, hgen, hsyn, hed, hmix, hpos]

/-- The name "Human_Photo.JPG" at counter 0, where the rotating rule would say ai-generated. -/
theorem determineResult_rule3_witness :
    includes (asciiLower "Human_Photo.JPG") "human" = true
      ∧ determineResult asciiLower 0 "Human_Photo.JPG"
          = { type := "not-ai", label := "Not AI Generated", confidence := 91 } :=
  ⟨by decide,
    determineResult_rule3 asciiLower 0 "Human_Photo.JPG" (Or.inr (Or.inl (by decide)))
      (by decide) (by decide) (by decide) (by decide) (by decide) (by decide)⟩

/-- Claim C3. When the lower-cased file name contains none of the nine keywords, the result is
decided by the counter modulo 3: remainder 0 gives ai-generated (94), remainder 1 not-ai (91),
remainder 2 possibly-ai (67); hence the results for `n + 3` and `n` agree. -/
theorem determineResult_rotation (toLowerCase : String → String) (n : Nat) (filename : String)
    (hai : includes (toLowerCase filename) "ai" = false)
    (hgen : includes (toLowerCase filename) "generated" = false)
    (hsyn : includes (toLowerCase filename) "synthetic" = false)
    (hed : includes (toLowerCase filename) "edited" = false)
    (hmix : includes (toLowerCase filename) "mixed" = false)
    (hpos : includes (toLowerCase filename) "possibly" = false)
    (hreal : includes (toLowerCase filename) "real" = false)
    (hhum : includes (toLowerCase filename) "human" = false)
    (haut : includes (toLowerCase filename) "authentic" = false) :
    (n % 3 = 0 → determineResult toLowerCase n filename
        = { type := "ai-generated", label := "AI Generated Detected", confidence := 94 })
      ∧ (n % 3 = 1 → determineResult toLowerCase n filename
        = { type := "not-ai", label := "Not AI Generated", confidence := 91 })
      ∧ (n % 3 = 2 → determineResult toLowerCase n filename
        = { type := "possibly-ai", label := "Possibly AI", confidence := 67 })
      ∧ determineResult toLowerCase (n + 3) filename = determineResult toLowerCase n filename := by
  unfold determineResult
  simp only [hai, hgen, hsyn, hed, hmix, hpos, hreal, hhum, haut, Bool.or_self,
    Bool.false_eq_true, if_false, Nat.add_mod_right]
  refine ⟨fun h => by simp [h], fun h => by simp [h], fun h => by simp [h], trivial⟩

/-- The empty file name at counter 5: no keyword occurs, remainder 2, possibly-ai. -/
theorem determineResult_rotation_witness :
    includes (asciiLower "") "ai" = false
      ∧ determineResult asciiLower 5 ""
          = { type := "possibly-ai", label := "Possibly AI", confidence := 67 }
      ∧ determineResult asciiLower 8 "" = determineResult asciiLower 5 "" :=
  have h := determineResult_rotation asciiLower 5 "" (by decide) (by decide) (by decide)
    (by decide) (by decide) (by decide) (by decide) (by decide) (by decide)
  ⟨by decide, h.2.2.1 (by decide), h.2.2.2⟩

/-! ## Runs and what every transition preserves -/

/-- A property kept by every allowed transition holds at the end of every run. -/
theorem runWith_preserves (toLowerCase : String → String) (ok : World → Event → Bool)
    (P : World → Prop)
    (hstep : ∀ w e w1, P w → ok w e = true → step toLowerCase w e = some w1 → P w1) :
    ∀ (es : List Event) (w w1 : World), P w → runWith toLowerCase ok w es = some w1 → P w1 := by
  intro es
  induction es with
  | nil =>
    intro w w1 hP h
    simp only [runWith, Option.some.injEq] at h
    exact h ▸ hP
  | cons e es ih =>
    intro w w1 hP h
    simp only [runWith] at h
    split at h
    · rename_i hok
      split at h
      · exact absurd h (by simp)
      · rename_i w2 hw2
        exact ih w2 w1 (hstep w e w2 hP hok hw2) h
    · exact absurd h (by simp)

/-- A run that passes a check is also a run of the unrestricted component. -/
theorem run_of_runWith (toLowerCase : String → String) (ok : World → Event → Bool) :
    ∀ (es : List Event) (w w1 : World),
      runWith toLowerCase ok w es = some w1 → run toLowerCase w es = some w1 := by
  intro es
  induction es with
  | nil => intro w w1 h; simpa [run, runWith] using h
  | cons e es ih =>
    intro w w1 h
    simp only [runWith] at h
    split at h
    · split at h
      · exact absurd h (by simp)
      · rename_i w2 hw2
        have := ih w2 w1 h
        simp only [run, runWith, if_true, hw2] at this ⊢
        exact this
    · exact absurd h (by simp)

/-- Every transition is one of: a clock advance, a callback run on the queue without its
earliest timer, or a direct call of one of the three handlers. -/
theorem step_cases (toLowerCase : String → String) (w w1 : World) (e : Event)
    (h : step toLowerCase w e = some w1) :
    (∃ d, e = Event.tick d ∧ w1 = { w with now := w.now + d })
      ∨ (∃ t rest, e = Event.fire ∧ popEarliest w.timers = some (t, rest)
          ∧ w1 = fireCallback toLowerCase t.cb { w with now := max w.now t.due, timers := rest })
      ∨ (∃ file d, e = Event.upload file d ∧ w1 = handleImageUpload w.st.uploadCount file d w)
      ∨ (e = Event.reset ∧ w1 = handleReset w)
      ∨ (∃ fn, e = Event.start fn ∧ w1 = startScanning w.st.uploadCount fn w) := by
  cases e with
  | tick d =>
    simp only [step] at h
    split at h
    · exact Or.inl ⟨d, rfl, by simpa using h.symm⟩
    · exact absurd h (by simp)
  | fire =>
    simp only [step] at h
    split at h
    · exact absurd h (by simp)
    · rename_i t rest hp
      exact Or.inr (Or.inl ⟨t, rest, rfl, hp, by simpa using h.symm⟩)
  | upload file d =>
    exact Or.inr (Or.inr (Or.inl ⟨file, d, rfl, by simpa [step] using h.symm⟩))
  | reset => exact Or.inr (Or.inr (Or.inr (Or.inl ⟨rfl, by simpa [step] using h.symm⟩)))
  | start fn =>
    exact Or.inr (Or.inr (Or.inr (Or.inr ⟨fn, rfl, by simpa [step] using h.symm⟩)))

/-- Running a callback never leaves the component scanning with a result stored, provided it
was not so before. -/
theorem fireCallback_exclusive (toLowerCase : String → String) (cb : Callback) (w : World)
    (h : ¬ (w.st.isScanning = true ∧ w.st.result.isSome = true)) :
    ¬ ((fireCallback toLowerCase cb w).st.isScanning = true
        ∧ (fireCallback toLowerCase cb w).st.result.isSome = true) := by
  cases cb <;> simp_all [fireCallback, startScanning]

/-- No transition leaves the component scanning with a result stored, provided it was not so
before. -/
theorem step_exclusive (toLowerCase : String → String) (w w1 : World) (e : Event)
    (h : ¬ (w.st.isScanning = true ∧ w.st.result.isSome = true))
    (hs : step toLowerCase w e = some w1) :
    ¬ (w1.st.isScanning = true ∧ w1.st.result.isSome = true) := by
  rcases step_cases toLowerCase w w1 e hs with
    ⟨d, -, rfl⟩ | ⟨t, rest, -, -, rfl⟩ | ⟨file, d, -, rfl⟩ | ⟨-, rfl⟩ | ⟨fn, -, rfl⟩
  · exact h
  · exact fireCallback_exclusive toLowerCase t.cb _ h
  · cases file <;> simpa [handleImageUpload] using h
  · simp [handleReset]
  · simp [startScanning]

/-- Running a callback never lowers the upload counter. -/
theorem fireCallback_uploadCount_le (toLowerCase : String → String) (cb : Callback) (w : World) :
    w.st.uploadCount ≤ (fireCallback toLowerCase cb w).st.uploadCount := by
  cases cb <;> simp [fireCallback, startScanning]

/-- No transition lowers the upload counter. -/
theorem step_uploadCount_le (toLowerCase : String → String) (w w1 : World) (e : Event)
    (hs : step toLowerCase w e = some w1) : w.st.uploadCount ≤ w1.st.uploadCount := by
  rcases step_cases toLowerCase w w1 e hs with
    ⟨d, -, rfl⟩ | ⟨t, rest, -, -, rfl⟩ | ⟨file, d, -, rfl⟩ | ⟨-, rfl⟩ | ⟨fn, -, rfl⟩
  · exact le_refl _
  · exact fireCallback_uploadCount_le toLowerCase t.cb
      { w with now := max w.now t.due, timers := rest }
  · cases file <;> simp [handleImageUpload]
  · simp [handleReset]
  · simp [startScanning]

/-! ## Invariants of the reachable states -/

/-- Claim C8. In every state reachable from the initial one by events of any kind (uploads,
direct starts, timer firings, resets, clock advances), a result is stored exactly when the
status is `Complete`; in particular no result is stored while `isScanning` is true. -/
theorem result_iff_complete (toLowerCase : String → String) (es : List Event) (w : World)
    (h : run toLowerCase initial es = some w) :
    (w.st.result.isSome = true ↔ status w.st = Status.Complete)
      ∧ ¬ (w.st.isScanning = true ∧ w.st.result.isSome = true) := by
  have hex : ¬ (w.st.isScanning = true ∧ w.st.result.isSome = true) :=
    runWith_preserves toLowerCase (fun _ _ => true)
      (fun x => ¬ (x.st.isScanning = true ∧ x.st.result.isSome = true))
      (fun x e x1 hx _ hs => step_exclusive toLowerCase x x1 e hx hs)
      es initial w (by simp [initial, initialState]) h
  refine ⟨?_, hex⟩
  unfold status
  constructor
  · intro hr
    have hsc : w.st.isScanning = false := by
      cases hb : w.st.isScanning
      · rfl
      · exact absurd ⟨hb, hr⟩ hex
    simp [hsc, hr]
  · intro hst
    by_cases hb : w.st.isScanning = true
    · simp [hb] at hst
    · by_cases hr : w.st.result.isSome = true
      · exact hr
      · simp [hb, hr] at hst

/-- After one full cycle on "test_ai_sample.png" the result is stored, scanning is over and the
status is `Complete`. -/
theorem result_iff_complete_witness :
    ∃ w, run asciiLower initial (cycle sample) = some w
      ∧ w.st.result.isSome = true ∧ w.st.isScanning = false
      ∧ (w.st.result.isSome = true ↔ status w.st = Status.Complete)
      ∧ ¬ (w.st.isScanning = true ∧ w.st.result.isSome = true) :=
  ⟨{ st := { selectedImage := some sample.dataUrl, isScanning := false,
             result := some { type := "ai-generated", label := "AI Generated Detected",
                              confidence := 94 },
             currentStep := 4, showCaption := false, uploadCount := 1 },
     now := 6500, timers := [⟨7500, Callback.caption⟩] },
   by decide, by decide, by decide,
   result_iff_complete asciiLower (cycle sample) _ (by decide)⟩

/-- Claim C10. `handleReset` sets `selectedImage` to null, `isScanning` to false, `result` to
null, `currentStep` to 0 and `showCaption` to false and leaves `uploadCount` as it was; and
along every sequence of transitions from any state the counter never decreases. -/
theorem handleReset_frame (toLowerCase : String → String) (w w1 : World) (es : List Event)
    (h : run toLowerCase w es = some w1) :
    (handleReset w).st.selectedImage = none
      ∧ (handleReset w).st.isScanning = false
      ∧ (handleReset w).st.result = none
      ∧ (handleReset w).st.currentStep = 0
      ∧ (handleReset w).st.showCaption = false
      ∧ (handleReset w).st.uploadCount = w.st.uploadCount
      ∧ w.st.uploadCount ≤ w1.st.uploadCount := by
  refine ⟨rfl, rfl, rfl, rfl, rfl, rfl, ?_⟩
  exact runWith_preserves toLowerCase (fun _ _ => true)
    (fun x => w.st.uploadCount ≤ x.st.uploadCount)
    (fun x e x1 hx _ hs => le_trans hx (step_uploadCount_le toLowerCase x x1 e hs))
    es w w1 (le_refl _) h

/-- A cycle on "photo.jpg" followed by a reset: the reset clears the five cells and the
counter, raised to 1 by the completion, stays 1. -/
theorem handleReset_frame_witness :
    ∃ w w1, run asciiLower initial (cycle photo) = some w
      ∧ run asciiLower w [Event.reset] = some w1
      ∧ w.st.uploadCount = 1 ∧ w.st.currentStep = 4 ∧ w.st.result.isSome = true
      ∧ ((handleReset w).st.selectedImage = none
        ∧ (handleReset w).st.isScanning = false
        ∧ (handleReset w).st.result = none
        ∧ (handleReset w).st.currentStep = 0
        ∧ (handleReset w).st.showCaption = false
        ∧ (handleReset w).st.uploadCount = w.st.uploadCount
        ∧ w.st.uploadCount ≤ w1.st.uploadCount) :=
  ⟨{ st := { selectedImage := some photo.dataUrl, isScanning := false,
             result := some { type := "ai-generated", label := "AI Generated Detected",
                              confidence := 94 },
             currentStep := 4, showCaption := false, uploadCount := 1 },
     now := 6500, timers := [⟨7500, Callback.caption⟩] },
   { st := { selectedImage := none, isScanning := false, result := none,
             currentStep := 0, showCaption := false, uploadCount := 1 },
     now := 6500, timers := [⟨7500, Callback.caption⟩] },
   by decide, by decide, by decide, by decide, by decide,
   handleReset_frame asciiLower _ _ [Event.reset] (by decide)⟩

/-! ## The sequencer -/

/-- The element taken out satisfies the test and the rest keeps the order of the others. -/
theorem extract_split (p : Timer → Bool) :
    ∀ (ts : List Timer) (t : Timer) (rest : List Timer), extract p ts = some (t, rest) →
      ∃ l1 l2, ts = l1 ++ t :: l2 ∧ rest = l1 ++ l2 ∧ p t = true := by
  intro ts
  induction ts with
  | nil => intro t rest h; simp [extract] at h
  | cons u us ih =>
    intro t rest h
    simp only [extract] at h
    split at h
    · rename_i hp
      simp only [Option.some.injEq, Prod.mk.injEq] at h
      obtain ⟨rfl, rfl⟩ := h
      exact ⟨[], _, rfl, rfl, hp⟩
    · cases hx : extract p us with
      | none => simp [hx] at h
      | some r =>
        simp only [hx, Option.map_some', Option.some.injEq, Prod.mk.injEq] at h
        obtain ⟨rfl, rfl⟩ := h
        obtain ⟨l1, l2, h1, h2, h3⟩ := ih r.1 r.2 hx
        exact ⟨u :: l1, l2, by simp [h1], by simp [h2], h3⟩

/-- The timer that fires next has the least due time and the others keep their order. -/
theorem popEarliest_split (ts : List Timer) (t : Timer) (rest : List Timer)
    (h : popEarliest ts = some (t, rest)) :
    ∃ l1 l2, ts = l1 ++ t :: l2 ∧ rest = l1 ++ l2 ∧ ∀ u ∈ ts, t.due ≤ u.due := by
  obtain ⟨l1, l2, h1, h2, h3⟩ := extract_split _ ts t rest h
  refine ⟨l1, l2, h1, h2, ?_⟩
  simpa [List.all_eq_true] using h3

/-- When nothing is taken out, no element satisfies the test. -/
theorem extract_none (p : Timer → Bool) :
    ∀ (ts : List Timer), extract p ts = none → ∀ t ∈ ts, p t = false := by
  intro ts
  induction ts with
  | nil => intro _ t ht; simp at ht
  | cons u us ih =>
    intro h t ht
    simp only [extract] at h
    split at h
    · simp at h
    · rename_i hp
      simp only [Option.map_eq_none'] at h
      rcases List.mem_cons.mp ht with rfl | ht
      · simpa using hp
      · exact ih h t ht

/-- A non-empty queue has a timer of least due time. -/
theorem exists_least_due : ∀ (ts : List Timer), ts ≠ [] →
    ∃ t ∈ ts, ∀ u ∈ ts, t.due ≤ u.due := by
  intro ts
  induction ts with
  | nil => intro h; exact absurd rfl h
  | cons u us ih =>
    intro _
    by_cases hus : us = []
    · subst hus
      exact ⟨u, List.mem_singleton_self u, by simp⟩
    · obtain ⟨t, ht, hmin⟩ := ih hus
      by_cases hle : u.due ≤ t.due
      · refine ⟨u, List.mem_cons_self _ _, ?_⟩
        intro v hv
        rcases List.mem_cons.mp hv with rfl | hv
        · exact le_refl _
        · exact le_trans hle (hmin v hv)
      · refine ⟨t, List.mem_cons_of_mem _ ht, ?_⟩
        intro v hv
        rcases List.mem_cons.mp hv with rfl | hv
        · omega
        · exact hmin v hv

/-- Only the empty queue has no timer to fire. -/
theorem popEarliest_none (ts : List Timer) (h : popEarliest ts = none) : ts = [] := by
  by_contra hne
  obtain ⟨t, ht, hmin⟩ := exists_least_due ts hne
  have := extract_none _ ts h t ht
  simp only [List.all_eq_true, decide_eq_true_eq] at this
  have h2 : (ts.all fun u => decide (t.due ≤ u.due)) = true := by
    simpa [List.all_eq_true] using hmin
  simp [h2] at this

/-- The timers of one scan fall due one strictly after the other. -/
theorem scanQueue_increasing (t0 c : Nat) (fn : String) (k : Nat) :
    ((scanQueue t0 c fn).drop k).Pairwise (fun a b => a.due < b.due) := by
  apply List.Pairwise.sublist (List.drop_sublist k _)
  simp [scanQueue]

/-- In a queue of strictly increasing due times nothing stands before an element of least due
time. -/
theorem front_empty_of_least (A B Q : List Timer) (t : Timer) (h : A ++ t :: B = Q)
    (hQ : Q.Pairwise (fun a b => a.due < b.due)) (hmin : ∀ a ∈ A, t.due ≤ a.due) : A = [] := by
  cases A with
  | nil => rfl
  | cons a A =>
    subst h
    have hmem : t ∈ A ++ t :: B := by simp
    have h1 : a.due < t.due := List.rel_of_pairwise_cons hQ hmem
    have h2 := hmin a (List.mem_cons_self _ _)
    omega

/-- Firing the next timer during a scan either runs a caption callback, which changes nothing
the page shows of the scan, or runs the next timer of the scan, which moves it one stage on. -/
theorem scan_fire (toLowerCase : String → String) (t0 c : Nat) (fn : String) (k : Nat)
    (x : World) (t : Timer) (rest : List Timer)
    (hS : ScanAt toLowerCase t0 c fn k x) (hp : popEarliest x.timers = some (t, rest)) :
    (ScanAt toLowerCase t0 c fn k
        (fireCallback toLowerCase t.cb { x with now := max x.now t.due, timers := rest })
      ∧ (fireCallback toLowerCase t.cb
          { x with now := max x.now t.due, timers := rest }).timers.length + 1 = x.timers.length)
    ∨ (k < 5
      ∧ ScanAt toLowerCase t0 c fn (k + 1)
          (fireCallback toLowerCase t.cb { x with now := max x.now t.due, timers := rest })
      ∧ (k < 4 → (fireCallback toLowerCase t.cb
          { x with now := max x.now t.due, timers := rest }).timers.length + 1
            = x.timers.length)) := by
  obtain ⟨l1, l2, hts, hrest, hmin⟩ := popEarliest_split x.timers t rest hp
  obtain ⟨hk, hf, hobs⟩ := hS
  rw [hts, List.filter_append, List.filter_cons] at hf
  have hlen : rest.length + 1 = x.timers.length := by simp [hts, hrest]; omega
  by_cases hc : t.cb.isCaption = true
  · have hcb : t.cb = Callback.caption := by
      cases hcb : t.cb <;> simp_all [Callback.isCaption]
    left
    refine ⟨⟨hk, ?_, ?_⟩, ?_⟩
    · simp only [hc, Bool.not_true, Bool.false_eq_true, if_false] at hf
      simpa [hcb, fireCallback, hrest, List.filter_append] using hf
    · simpa [hcb, fireCallback, observe, status] using hobs
    · simpa [hcb, fireCallback] using hlen
  · right
    simp only [hc, Bool.not_false, if_true] at hf
    have hA : l1.filter (fun t => !t.cb.isCaption) = [] :=
      front_empty_of_least _ _ _ t hf (scanQueue_increasing t0 c fn k)
        (fun a ha => hmin a (by rw [hts]; exact List.mem_append_left _ (List.mem_filter.mp ha).1))
    rw [hA, List.nil_append] at hf
    have hk5 : k < 5 := by
      by_contra hge
      have : k = 5 := by omega
      subst this
      simp [scanQueue] at hf
    refine ⟨hk5, ?_⟩
    interval_cases k <;>
      simp only [scanQueue, List.drop, List.cons.injEq] at hf <;>
      obtain ⟨rfl, hf2⟩ := hf <;>
      simp_all [ScanAt, fireCallback, observe, status, viewAt, scanQueue, List.filter_append,
        Callback.isCaption]

/-- A trace begins with the world it starts from. -/
theorem trace_cons (toLowerCase : String → String) (w : World) (es : List Event) :
    ∃ l, trace toLowerCase w es = w :: l := by
  cases es with
  | nil => exact ⟨[], rfl⟩
  | cons e es => exact ⟨_, rfl⟩

/-- Consecutive stages of a scan show different views. -/
theorem viewAt_succ_ne (r : Outcome) (k : Nat) (hk : k < 5) : viewAt r k ≠ viewAt r (k + 1) := by
  interval_cases k <;> simp [viewAt]

/-- From stage `k` on, the distinct successive views of a scan are those of the stages `k`,
`k + 1`, and so on without a gap, up to stage 5 once enough timers have fired. -/
theorem scan_trace_from (toLowerCase : String → String) (t0 c : Nat) (fn : String) :
    ∀ (n k : Nat) (x : World), ScanAt toLowerCase t0 c fn k x →
      ∃ j, 1 ≤ j ∧ k + j ≤ 6
        ∧ List.destutter (· ≠ ·)
            ((trace toLowerCase x (List.replicate n Event.fire)).map observe)
          = (List.range' k j).map (viewAt (determineResult toLowerCase c fn))
        ∧ (k = 5 ∨ x.timers.length ≤ n → k + j = 6) := by
  intro n
  induction n with
  | zero =>
    intro k x hS
    refine ⟨1, le_refl _, by have := hS.1; omega, ?_, ?_⟩
    · simp [trace, hS.2.2]
    · rintro (rfl | hlen)
      · rfl
      · have hnil : x.timers = [] := List.length_eq_zero.mp (Nat.le_zero.mp hlen)
        have hf := hS.2.1
        rw [hnil] at hf
        have hk := hS.1
        interval_cases k <;> simp_all [scanQueue]
  | succ n ih =>
    intro k x hS
    cases hp : popEarliest x.timers with
    | none =>
      have hnil := popEarliest_none x.timers hp
      have hk5 : k = 5 := by
        have hf := hS.2.1
        rw [hnil] at hf
        have hk := hS.1
        interval_cases k <;> simp_all [scanQueue]
      refine ⟨1, le_refl _, by omega, ?_, fun _ => by omega⟩
      simp [List.replicate, trace, step, hp, hS.2.2]
    | some p =>
      obtain ⟨t, rest⟩ := p
      have htr : trace toLowerCase x (List.replicate (n + 1) Event.fire)
          = x :: trace toLowerCase
              (fireCallback toLowerCase t.cb { x with now := max x.now t.due, timers := rest })
              (List.replicate n Event.fire) := by
        simp [List.replicate, trace, step, hp]
      obtain ⟨l, hl⟩ := trace_cons toLowerCase
        (fireCallback toLowerCase t.cb { x with now := max x.now t.due, timers := rest })
        (List.replicate n Event.fire)
      rcases scan_fire toLowerCase t0 c fn k x t rest hS hp with ⟨hS1, hlen⟩ | ⟨hk5, hS1, hlen⟩
      · obtain ⟨j, hj1, hj6, hd, hfull⟩ := ih k _ hS1
        refine ⟨j, hj1, hj6, ?_, ?_⟩
        · rw [htr, ← hd, hl]
          simp only [List.map_cons, hS.2.2, hS1.2.2, List.destutter_cons']
          exact List.destutter'_cons_neg _ (by simp)
        · rintro (h5 | hle)
          · exact hfull (Or.inl h5)
          · exact hfull (Or.inr (by omega))
      · obtain ⟨j, hj1, hj6, hd, hfull⟩ := ih (k + 1) _ hS1
        refine ⟨j + 1, by omega, by omega, ?_, ?_⟩
        · have hr : (List.range' k (j + 1)).map (viewAt (determineResult toLowerCase c fn))
              = viewAt (determineResult toLowerCase c fn) k
                :: (List.range' (k + 1) j).map (viewAt (determineResult toLowerCase c fn)) := by
            simp [List.range'_succ]
          rw [htr, hr, ← hd, hl]
          simp only [List.map_cons, hS.2.2, hS1.2.2, List.destutter_cons']
          exact List.destutter'_cons_pos _ (viewAt_succ_ne _ k hk5)
        · intro hcond
          have : k + 1 = 5 ∨
              (fireCallback toLowerCase t.cb
                { x with now := max x.now t.due, timers := rest }).timers.length ≤ n := by
            by_cases h4 : k < 4
            · right
              have := hlen h4
              rcases hcond with h5 | hle
              · omega
              · omega
            · left; omega
          have := hfull this
          omega

/-- A phase timer is not a caption timer. -/
theorem isCaption_step (i : Nat) : (Callback.step i).isCaption = false := rfl

/-- The completion timer is not a caption timer. -/
theorem isCaption_complete (fn : String) (c : Nat) :
    (Callback.complete fn c).isCaption = false := rfl

/-- A call of `startScanning` with only caption timers pending begins a scan at stage 0. -/
theorem startScanning_scanAt (toLowerCase : String → String) (c : Nat) (fn : String) (w : World)
    (h : ∀ t ∈ w.timers, t.cb = Callback.caption) :
    ScanAt toLowerCase w.now c fn 0 (startScanning c fn w) := by
  refine ⟨by omega, ?_, ?_⟩
  · have hnil : w.timers.filter (fun t => !t.cb.isCaption) = [] := by
      apply List.filter_eq_nil_iff.mpr
      intro t ht
      simp [h t ht, Callback.isCaption]
    simp [startScanning, List.filter_append, hnil, analysisSteps, stepDuration, List.enum,
      List.enumFrom, scanQueue, isCaption_step, isCaption_complete, List.filter_cons]
  · simp [startScanning, observe, status, viewAt]

/-- Claim C7, refuted as stated. "holiday.png" and "photo.jpg" are chosen before either has
been read, which the page allows, and the read of the first takes 6100 time units. The scan
of "photo.jpg" starts at time 560 with the `onload` of "holiday.png" pending; that callback
runs at time 6100, after the fourth phase advance and before the completion, and sets
`currentStep` to 0. With the timers fired in order of their due times, no reset and no second
start (the delayed start of "holiday.png" is still pending at the end), `currentStep` goes
0, 1, 2, 3, 4, 0 and the result is stored at `currentStep` = 0. -/
theorem scan_disturbed_by_pending_onload :
    (∃ w, runWith asciiLower offered initial (lateLoadEvents.take 4) = some w
      ∧ popEarliest w.timers
          = some (⟨560, Callback.start "photo.jpg" 0⟩, [⟨6100, Callback.loaded holiday 0⟩]))
    ∧ (∃ w, runWith asciiLower offered initial lateLoadEvents = some w
      ∧ w.st.currentStep = 0 ∧ w.st.isScanning = false ∧ w.st.result.isSome = true
      ∧ w.timers = [⟨6600, Callback.start "holiday.png" 0⟩, ⟨7560, Callback.caption⟩])
    ∧ Event.reset ∉ lateLoadEvents
    ∧ ((trace asciiLower initial lateLoadEvents).drop 5).map
          (fun x => (x.st.currentStep, x.st.isScanning, x.st.result.isSome, x.now))
        = [(0, true, false, 560), (1, true, false, 560), (2, true, false, 2060),
           (3, true, false, 3560), (4, true, false, 5060), (0, true, false, 6100),
           (0, false, true, 6560)]
    ∧ List.destutter (· ≠ ·) (((trace asciiLower initial lateLoadEvents).drop 5).map observe)
        ≠ [(0, true, Status.Scanning, none),
           (1, true, Status.Scanning, none),
           (2, true, Status.Scanning, none),
           (3, true, Status.Scanning, none),
           (4, true, Status.Scanning, none),
           (4, false, Status.Complete, some (determineResult asciiLower 0 "photo.jpg"))] :=
  ⟨⟨{ st := { selectedImage := some photo.dataUrl, isScanning := false, result := none,
              currentStep := 0, showCaption := false, uploadCount := 0 },
      now := 60,
      timers := [⟨6100, Callback.loaded holiday 0⟩, ⟨560, Callback.start "photo.jpg" 0⟩] },
    by decide, by decide⟩,
   ⟨{ st := { selectedImage := some holiday.dataUrl, isScanning := false,
              result := some { type := "ai-generated", label := "AI Generated Detected",
                               confidence := 94 },
              currentStep := 0, showCaption := false, uploadCount := 1 },
      now := 6560,
      timers := [⟨6600, Callback.start "holiday.png" 0⟩, ⟨7560, Callback.caption⟩] },
    by decide, by decide, by decide, by decide, by decide⟩,
   by decide, by decide, by decide⟩

/-- Claim C7, amended. A scan started by `startScanning` while at most caption timers of earlier
cycles are pending (so no `onload`, delayed start, phase or completion timer of another
file), and then left to its timers, which fire in order of their due times: once all
timers have fired, the successive distinct views are `currentStep` = 0, 1, 2, 3, 4 in this
order, scanning and without a result, followed by `isScanning` false with the result stored
(status `Complete`) at `currentStep` = 4; and at every earlier moment the views seen so far
are an initial part of this sequence. -/
theorem uninterrupted_scan_trace (toLowerCase : String → String) (uploadCount : Nat)
    (filename : String) (w : World) (n : Nat)
    (h : ∀ t ∈ w.timers, t.cb = Callback.caption) (hn : w.timers.length + 5 ≤ n) :
    List.destutter (· ≠ ·)
        ((trace toLowerCase (startScanning uploadCount filename w)
            (List.replicate n Event.fire)).map observe)
      = [(0, true, Status.Scanning, none),
         (1, true, Status.Scanning, none),
         (2, true, Status.Scanning, none),
         (3, true, Status.Scanning, none),
         (4, true, Status.Scanning, none),
         (4, false, Status.Complete, some (determineResult toLowerCase uploadCount filename))]
    ∧ ∀ m, List.destutter (· ≠ ·)
        ((trace toLowerCase (startScanning uploadCount filename w)
            (List.replicate m Event.fire)).map observe)
      <+: [(0, true, Status.Scanning, none),
         (1, true, Status.Scanning, none),
         (2, true, Status.Scanning, none),
         (3, true, Status.Scanning, none),
         (4, true, Status.Scanning, none),
         (4, false, Status.Complete, some (determineResult toLowerCase uploadCount filename))] := by
  have h0 := startScanning_scanAt toLowerCase uploadCount filename w h
  constructor
  · obtain ⟨j, hj1, hj6, hd, hfull⟩ :=
      scan_trace_from toLowerCase w.now uploadCount filename n 0 _ h0
    have hj : j = 6 := by
      have := hfull (Or.inr (by
        simp [startScanning, analysisSteps]
        omega))
      omega
    subst hj
    rw [hd]
    simp [List.range', viewAt]
  · intro m
    obtain ⟨j, hj1, hj6, hd, -⟩ :=
      scan_trace_from toLowerCase w.now uploadCount filename m 0 _ h0
    rw [hd]
    have hj : j ≤ 6 := by omega
    interval_cases j <;> simp [List.range', viewAt, List.prefix_cons_inj]

/-- The scan of "photo.jpg" started at time 7200 with the caption timer of the previous cycle
pending for time 7500: the seven states passed through show the stale timer firing between
the first and the second phase advance, and the distinct views are the six of the claim. -/
theorem uninterrupted_scan_trace_witness :
    (trace asciiLower
        (startScanning 1 "photo.jpg"
          { st := { selectedImage := some photo.dataUrl, isScanning := false, result := none,
                    currentStep := 0, showCaption := false, uploadCount := 1 },
            now := 7200, timers := [⟨7500, Callback.caption⟩] })
        (List.replicate 6 Event.fire)).map (fun x => (x.st.currentStep, x.st.showCaption, x.now))
      = [(0, false, 7200), (1, false, 7200), (1, true, 7500), (2, true, 8700), (3, true, 10200),
         (4, true, 11700), (4, true, 13200)]
    ∧ (List.destutter (· ≠ ·)
        ((trace asciiLower
            (startScanning 1 "photo.jpg"
              { st := { selectedImage := some photo.dataUrl, isScanning := false, result := none,
                        currentStep := 0, showCaption := false, uploadCount := 1 },
                now := 7200, timers := [⟨7500, Callback.caption⟩] })
            (List.replicate 6 Event.fire)).map observe)
      = [(0, true, Status.Scanning, none),
         (1, true, Status.Scanning, none),
         (2, true, Status.Scanning, none),
         (3, true, Status.Scanning, none),
         (4, true, Status.Scanning, none),
         (4, false, Status.Complete, some (determineResult asciiLower 1 "photo.jpg"))]
      ∧ ∀ m, List.destutter (· ≠ ·)
        ((trace asciiLower
            (startScanning 1 "photo.jpg"
              { st := { selectedImage := some photo.dataUrl, isScanning := false, result := none,
                        currentStep := 0, showCaption := false, uploadCount := 1 },
                now := 7200, timers := [⟨7500, Callback.caption⟩] })
            (List.replicate m Event.fire)).map observe)
      <+: [(0, true, Status.Scanning, none),
         (1, true, Status.Scanning, none),
         (2, true, Status.Scanning, none),
         (3, true, Status.Scanning, none),
         (4, true, Status.Scanning, none),
         (4, false, Status.Complete, some (determineResult asciiLower 1 "photo.jpg"))]) :=
  ⟨by decide,
   uninterrupted_scan_trace asciiLower 1 "photo.jpg" _ 6 (by decide) (by decide)⟩

/-- Claim C5, refuted as stated. Two files are chosen before the first has been read, which the
page allows. When the delayed start of the second file falls due the first scan is in
progress at `currentStep` = 1 with five timers pending; `startScanning` is not rejected: it
puts `currentStep` back to 0 and leaves ten timers pending. -/
theorem startScanning_reentrant_not_rejected :
    ∃ w rest, runWith asciiLower offered initial overlapEvents = some w
      ∧ w.st.isScanning = true ∧ w.st.currentStep = 1 ∧ w.timers.length = 5
      ∧ popEarliest w.timers = some (⟨560, Callback.start "photo.jpg" 0⟩, rest)
      ∧ startScanning 0 "photo.jpg" w ≠ w
      ∧ (startScanning 0 "photo.jpg" w).st.currentStep = 0
      ∧ (startScanning 0 "photo.jpg" w).timers.length = 10 :=
  ⟨{ st := { selectedImage := some photo.dataUrl, isScanning := true, result := none,
             currentStep := 1, showCaption := false, uploadCount := 0 },
     now := 550,
     timers := [⟨560, Callback.start "photo.jpg" 0⟩, ⟨2050, Callback.step 1⟩,
                ⟨3550, Callback.step 2⟩, ⟨5050, Callback.step 3⟩,
                ⟨6550, Callback.complete "holiday.png" 0⟩] },
   [⟨2050, Callback.step 1⟩, ⟨3550, Callback.step 2⟩, ⟨5050, Callback.step 3⟩,
    ⟨6550, Callback.complete "holiday.png" 0⟩],
   by decide, by decide, by decide, by decide, by decide, by decide, by decide, by decide⟩

/-- Claim C5, amended. `startScanning` called while a scan is in progress is carried out like
any other call: `isScanning` stays true, `result` is set to null and `currentStep` to 0, the
clock and the pending timers are kept, and behind them a second timeline is scheduled, the
four phase timers 0, 1500, 3000 and 4500 units and the completion timer 6000 units ahead. -/
theorem startScanning_reentrant (uploadCount : Nat) (filename : String) (w : World)
    (h : w.st.isScanning = true) :
    (startScanning uploadCount filename w).st = { w.st with result := none, currentStep := 0 }
      ∧ (startScanning uploadCount filename w).now = w.now
      ∧ (startScanning uploadCount filename w).timers
          = w.timers ++ [⟨w.now, Callback.step 0⟩, ⟨w.now + 1500, Callback.step 1⟩,
                         ⟨w.now + 3000, Callback.step 2⟩, ⟨w.now + 4500, Callback.step 3⟩,
                         ⟨w.now + 6000, Callback.complete filename uploadCount⟩] := by
  refine ⟨?_, rfl, ?_⟩
  · simp [startScanning, ← h]
  · simp [startScanning, analysisSteps, stepDuration, List.enum, List.enumFrom]

/-- A direct second call of `startScanning` two phases into a running scan of "photo.jpg". -/
theorem startScanning_reentrant_witness :
    ∃ w, run asciiLower initial [Event.start "photo.jpg", Event.fire, Event.fire] = some w
      ∧ w.st.isScanning = true ∧ w.st.currentStep = 2 ∧ w.timers.length = 3
      ∧ ((startScanning 0 "holiday.png" w).st = { w.st with result := none, currentStep := 0 }
        ∧ (startScanning 0 "holiday.png" w).now = w.now
        ∧ (startScanning 0 "holiday.png" w).timers
            = w.timers ++ [⟨w.now, Callback.step 0⟩, ⟨w.now + 1500, Callback.step 1⟩,
                           ⟨w.now + 3000, Callback.step 2⟩, ⟨w.now + 4500, Callback.step 3⟩,
                           ⟨w.now + 6000, Callback.complete "holiday.png" 0⟩]) :=
  ⟨{ st := { selectedImage := none, isScanning := true, result := none,
             currentStep := 2, showCaption := false, uploadCount := 0 },
     now := 1500,
     timers := [⟨3000, Callback.step 2⟩, ⟨4500, Callback.step 3⟩,
                ⟨6000, Callback.complete "photo.jpg" 0⟩] },
   by decide, by decide, by decide, by decide,
   startScanning_reentrant 0 "holiday.png" _ (by decide)⟩

/-! ## Reset and the timers of earlier cycles -/

/-- Claim C6, refuted as stated. First part: a cycle on "photo.jpg" completes and 100 units
later, its caption timer still pending, the page's reset button is used; when the stale
timer fires, `showCaption` turns true. Second part: `handleReset` two phases into a scan;
the three stale timers then bring `currentStep` to 4, store a result and raise the counter. -/
theorem stale_timers_mutate_after_reset :
    (∃ w w2, runWith asciiLower offered initial (cycle photo ++ [Event.tick 100]) = some w
      ∧ w.timers = [⟨7500, Callback.caption⟩]
      ∧ offered w Event.reset = true
      ∧ (handleReset w).st.showCaption = false
      ∧ step asciiLower (handleReset w) Event.fire = some w2
      ∧ w2.st.showCaption = true
      ∧ w2.st ≠ (handleReset w).st)
    ∧ (∃ w w3, run asciiLower initial [Event.start "photo.jpg", Event.fire, Event.fire] = some w
      ∧ w.st.isScanning = true ∧ w.timers.length = 3
      ∧ (handleReset w).st.currentStep = 0 ∧ (handleReset w).st.uploadCount = 0
      ∧ run asciiLower (handleReset w) [Event.fire, Event.fire, Event.fire] = some w3
      ∧ w3.st.currentStep = 4 ∧ w3.st.result.isSome = true ∧ w3.st.uploadCount = 1
      ∧ status w3.st = Status.Complete) :=
  ⟨⟨{ st := { selectedImage := some photo.dataUrl, isScanning := false,
              result := some { type := "ai-generated", label := "AI Generated Detected",
                               confidence := 94 },
              currentStep := 4, showCaption := false, uploadCount := 1 },
      now := 6600, timers := [⟨7500, Callback.caption⟩] },
    { st := { selectedImage := none, isScanning := false, result := none,
              currentStep := 0, showCaption := true, uploadCount := 1 },
      now := 7500, timers := [] },
    by decide, by decide, by decide, by decide, by decide, by decide, by decide⟩,
   ⟨{ st := { selectedImage := none, isScanning := true, result := none,
              currentStep := 2, showCaption := false, uploadCount := 0 },
      now := 1500,
      timers := [⟨3000, Callback.step 2⟩, ⟨4500, Callback.step 3⟩,
                 ⟨6000, Callback.complete "photo.jpg" 0⟩] },
    { st := { selectedImage := none, isScanning := false,
              result := some { type := "ai-generated", label := "AI Generated Detected",
                               confidence := 94 },
              currentStep := 4, showCaption := false, uploadCount := 1 },
      now := 6000, timers := [⟨7000, Callback.caption⟩] },
    by decide, by decide, by decide, by decide, by decide, by decide, by decide, by decide,
    by decide, by decide⟩⟩

/-- Claim C6, amended. `handleReset` cancels nothing: the queue of pending timers is the same
after it. The timer that was due to fire next still fires next and applies its update to the
reset state: a phase timer sets `currentStep` to its phase number, the completion timer
clears `isScanning`, stores the result and adds one to the counter, the caption timer sets
`showCaption`; the remaining cells keep the values `handleReset` gave them. -/
theorem handleReset_keeps_timers (toLowerCase : String → String) (w : World) (t : Timer)
    (rest : List Timer) (h : popEarliest w.timers = some (t, rest)) :
    (handleReset w).timers = w.timers
      ∧ ∃ w1, step toLowerCase (handleReset w) Event.fire = some w1
        ∧ (∀ index, t.cb = Callback.step index →
            w1.st = { (handleReset w).st with currentStep := index + 1 })
        ∧ (∀ filename uploadCount, t.cb = Callback.complete filename uploadCount →
            w1.st = { (handleReset w).st with
                        isScanning := false,
                        result := some (determineResult toLowerCase uploadCount filename),
                        uploadCount := w.st.uploadCount + 1 })
        ∧ (t.cb = Callback.caption → w1.st = { (handleReset w).st with showCaption := true }) := by
  refine ⟨rfl, fireCallback toLowerCase t.cb
    { handleReset w with now := max w.now t.due, timers := rest }, ?_, ?_, ?_, ?_⟩
  · have hq : (handleReset w).timers = w.timers := rfl
    simp only [step, hq, h]
    rfl
  · intro index hcb; simp [hcb, fireCallback, handleReset]
  · intro filename uploadCount hcb; simp [hcb, fireCallback, handleReset]
  · intro hcb; simp [hcb, fireCallback, handleReset]

/-- A reset two phases into a scan of "photo.jpg": the third phase timer is still the next to
fire and sets `currentStep` to 3. -/
theorem handleReset_keeps_timers_witness :
    ∃ w, run asciiLower initial [Event.start "photo.jpg", Event.fire, Event.fire] = some w
      ∧ popEarliest w.timers
          = some (⟨3000, Callback.step 2⟩,
                  [⟨4500, Callback.step 3⟩, ⟨6000, Callback.complete "photo.jpg" 0⟩])
      ∧ ((handleReset w).timers = w.timers
        ∧ ∃ w1, step asciiLower (handleReset w) Event.fire = some w1
          ∧ (∀ index, (⟨3000, Callback.step 2⟩ : Timer).cb = Callback.step index →
              w1.st = { (handleReset w).st with currentStep := index + 1 })
          ∧ (∀ filename uploadCount,
              (⟨3000, Callback.step 2⟩ : Timer).cb = Callback.complete filename uploadCount →
              w1.st = { (handleReset w).st with
                          isScanning := false,
                          result := some (determineResult asciiLower uploadCount filename),
                          uploadCount := w.st.uploadCount + 1 })
          ∧ ((⟨3000, Callback.step 2⟩ : Timer).cb = Callback.caption →
              w1.st = { (handleReset w).st with showCaption := true })) :=
  ⟨{ st := { selectedImage := none, isScanning := true, result := none,
             currentStep := 2, showCaption := false, uploadCount := 0 },
     now := 1500,
     timers := [⟨3000, Callback.step 2⟩, ⟨4500, Callback.step 3⟩,
                ⟨6000, Callback.complete "photo.jpg" 0⟩] },
   by decide, by decide,
   handleReset_keeps_timers asciiLower _ ⟨3000, Callback.step 2⟩
     [⟨4500, Callback.step 3⟩, ⟨6000, Callback.complete "photo.jpg" 0⟩] (by decide)⟩

/-! ## The caption -/

/-- Claim C9, refuted as stated. A cycle on "holiday.png" completes, the page is reset 100 units
later and "photo.jpg" is chosen. The caption timer of the first cycle fires during the
second scan, so at the moment the second completion stores its result `showCaption` is
already true, while the caption timer which that completion schedules is still pending. -/
theorem caption_visible_at_completion :
    ∃ w w1, runWith asciiLower offered initial secondCycleEvents = some w
      ∧ w.st.isScanning = true ∧ w.st.result = none ∧ w.st.showCaption = true
      ∧ w.timers = [⟨13200, Callback.complete "photo.jpg" 1⟩]
      ∧ step asciiLower w Event.fire = some w1
      ∧ status w1.st = Status.Complete ∧ w1.st.result.isSome = true
      ∧ w1.st.showCaption = true
      ∧ w1.now = 13200 ∧ w1.timers = [⟨14200, Callback.caption⟩] :=
  ⟨{ st := { selectedImage := some photo.dataUrl, isScanning := true, result := none,
             currentStep := 4, showCaption := true, uploadCount := 1 },
     now := 11700, timers := [⟨13200, Callback.complete "photo.jpg" 1⟩] },
   { st := { selectedImage := some photo.dataUrl, isScanning := false,
             result := some { type := "not-ai", label := "Not AI Generated", confidence := 91 },
             currentStep := 4, showCaption := true, uploadCount := 2 },
     now := 13200, timers := [⟨14200, Callback.caption⟩] },
   by decide, by decide, by decide, by decide, by decide, by decide, by decide, by decide,
   by decide, by decide, by decide⟩

/-- Running a callback turns `showCaption` from false to true only if it is the caption
callback. -/
theorem fireCallback_showCaption (toLowerCase : String → String) (cb : Callback) (w : World)
    (h0 : w.st.showCaption = false)
    (h1 : (fireCallback toLowerCase cb w).st.showCaption = true) : cb = Callback.caption := by
  cases cb <;> simp_all [fireCallback, startScanning]

/-- Claim C9, amended. In a scan started with `showCaption` false and no other timer pending,
`showCaption` is false up to and including the moment the completion stores the result, and
true after the sixth timer, which fires 1000 units after the completion. In every state the
completion callback leaves `showCaption` as it is and schedules a caption timer 1000 units
ahead; and a transition turns `showCaption` from false to true only by firing a caption
timer (of whichever cycle). -/
theorem caption_after_completion (toLowerCase : String → String) (uploadCount : Nat)
    (filename : String) (w : World) (h : w.timers = []) (hc : w.st.showCaption = false) :
    (trace toLowerCase (startScanning uploadCount filename w) (List.replicate 6 Event.fire)).map
        (fun x => (x.st.result.isSome, x.st.showCaption, x.now))
      = [(false, false, w.now), (false, false, w.now), (false, false, w.now + 1500),
         (false, false, w.now + 3000), (false, false, w.now + 4500),
         (true, false, w.now + 6000), (true, true, w.now + 7000)]
    ∧ (∀ (x : World) (fn : String) (c : Nat),
        (fireCallback toLowerCase (Callback.complete fn c) x).st.showCaption = x.st.showCaption
        ∧ (fireCallback toLowerCase (Callback.complete fn c) x).timers
            = x.timers ++ [⟨x.now + 1000, Callback.caption⟩])
    ∧ (∀ (x x1 : World) (e : Event), step toLowerCase x e = some x1 →
        x.st.showCaption = false → x1.st.showCaption = true →
        e = Event.fire
          ∧ ∃ t rest, popEarliest x.timers = some (t, rest) ∧ t.cb = Callback.caption) := by
  refine ⟨?_, fun x fn c => ⟨rfl, rfl⟩, ?_⟩
  · obtain ⟨st, now, timers⟩ := w
    simp only at h hc
    subst h
    simp [trace, List.replicate, startScanning, step, popEarliest, extract, analysisSteps,
      stepDuration, List.enum, List.enumFrom, fireCallback, hc]
  · intro x x1 e hs h0 h1
    rcases step_cases toLowerCase x x1 e hs with
      ⟨d, -, rfl⟩ | ⟨t, rest, he, hp, rfl⟩ | ⟨file, d, -, rfl⟩ | ⟨-, rfl⟩ | ⟨fn, -, rfl⟩
    · simp [h0] at h1
    · exact ⟨he, t, rest, hp, fireCallback_showCaption toLowerCase t.cb
        { x with now := max x.now t.due, timers := rest } h0 h1⟩
    · cases file <;> simp [handleImageUpload, h0] at h1
    · simp [handleReset] at h1
    · simp [startScanning, h0] at h1

/-- The scan of "test_ai_sample.png" started on the freshly mounted component: the result
appears at time 6000 with the caption hidden, the caption at time 7000. -/
theorem caption_after_completion_witness :
    (trace asciiLower (startScanning 0 "test_ai_sample.png" initial)
        (List.replicate 6 Event.fire)).map
        (fun x => (x.st.result.isSome, x.st.showCaption, x.now))
      = [(false, false, initial.now), (false, false, initial.now),
         (false, false, initial.now + 1500), (false, false, initial.now + 3000),
         (false, false, initial.now + 4500), (true, false, initial.now + 6000),
         (true, true, initial.now + 7000)] :=
  (caption_after_completion asciiLower 0 "test_ai_sample.png" initial rfl rfl).1

/-! ## The counter read by the completion -/

/-- Taking an element out of a list leaves a rearrangement of the list. -/
theorem extract_perm (p : Timer → Bool) :
    ∀ (ts : List Timer) (t : Timer) (rest : List Timer),
      extract p ts = some (t, rest) → ts.Perm (t :: rest) := by
  intro ts
  induction ts with
  | nil => intro t rest h; simp [extract] at h
  | cons u us ih =>
    intro t rest h
    simp only [extract] at h
    split at h
    · simp only [Option.some.injEq, Prod.mk.injEq] at h
      obtain ⟨rfl, rfl⟩ := h
      exact List.Perm.refl _
    · cases hx : extract p us with
      | none => simp [hx] at h
      | some r =>
        simp only [hx, Option.map_some', Option.some.injEq, Prod.mk.injEq] at h
        obtain ⟨rfl, rfl⟩ := h
        exact (List.Perm.cons u (ih r.1 r.2 hx)).trans (List.Perm.swap _ _ _)

/-- The timer that fires next and the timers that stay make up the queue. -/
theorem popEarliest_perm (ts : List Timer) (t : Timer) (rest : List Timer)
    (h : popEarliest ts = some (t, rest)) : ts.Perm (t :: rest) :=
  extract_perm _ ts t rest h

/-- In every reachable state no pending callback holds a counter value above the current
one. -/
theorem captured_le_step (toLowerCase : String → String) (w w1 : World) (e : Event)
    (hP : ∀ t ∈ w.timers, ∀ c, t.cb.captured = some c → c ≤ w.st.uploadCount)
    (hs : step toLowerCase w e = some w1) :
    ∀ t ∈ w1.timers, ∀ c, t.cb.captured = some c → c ≤ w1.st.uploadCount := by
  rcases step_cases toLowerCase w w1 e hs with
    ⟨d, -, rfl⟩ | ⟨t, rest, -, hp, rfl⟩ | ⟨file, d, -, rfl⟩ | ⟨-, rfl⟩ | ⟨fn, -, rfl⟩
  · exact hP
  · have hperm := popEarliest_perm w.timers t rest hp
    have ht : t ∈ w.timers := hperm.mem_iff.mpr (List.mem_cons_self _ _)
    have hrest : ∀ u ∈ rest, u ∈ w.timers :=
      fun u hu => hperm.mem_iff.mpr (List.mem_cons_of_mem _ hu)
    obtain ⟨d, cb⟩ := t
    have hcb := hP _ ht
    intro u hu c hc
    cases cb with
    | loaded f c0 =>
      simp only [fireCallback, List.mem_append, List.mem_singleton] at hu
      rcases hu with hu | rfl
      · exact hP u (hrest u hu) c hc
      · exact hcb c (by simpa [Callback.captured] using hc)
    | start fn c0 =>
      simp only [fireCallback, startScanning, List.mem_append, List.mem_singleton,
        List.mem_map] at hu
      rcases hu with (hu | ⟨a, -, rfl⟩) | rfl
      · exact hP u (hrest u hu) c hc
      · simp [Callback.captured] at hc
      · exact hcb c (by simpa [Callback.captured] using hc)
    | step i =>
      simp only [fireCallback] at hu
      exact hP u (hrest u hu) c hc
    | complete fn c0 =>
      simp only [fireCallback, List.mem_append, List.mem_singleton] at hu
      rcases hu with hu | rfl
      · exact Nat.le_succ_of_le (hP u (hrest u hu) c hc)
      · simp [Callback.captured] at hc
    | caption =>
      simp only [fireCallback] at hu
      exact hP u (hrest u hu) c hc
  · cases file with
    | none => exact hP
    | some f =>
      intro u hu c hc
      simp only [handleImageUpload, List.mem_append, List.mem_singleton] at hu
      rcases hu with hu | rfl
      · exact hP u hu c hc
      · simp only [Callback.captured, Option.some.injEq] at hc
        exact hc ▸ le_refl _
  · exact hP
  · intro u hu c hc
    simp only [startScanning, List.mem_append, List.mem_singleton, List.mem_map] at hu
    rcases hu with (hu | ⟨a, -, rfl⟩) | rfl
    · exact hP u hu c hc
    · simp [Callback.captured] at hc
    · simp only [Callback.captured, Option.some.injEq] at hc
      exact hc ▸ le_refl _

/-- A callback that holds a counter value belongs to a cycle that has not completed. -/
theorem inFlight_of_captured (cb : Callback) (c : Nat) (h : cb.captured = some c) :
    cb.inFlight = true := by
  cases cb <;> simp_all [Callback.captured, Callback.inFlight]

/-- The `onload` callback belongs to a cycle on its way. -/
theorem inFlight_loaded (f : File) (c : Nat) : (Callback.loaded f c).inFlight = true := rfl

/-- The delayed start belongs to a cycle on its way. -/
theorem inFlight_start (fn : String) (c : Nat) : (Callback.start fn c).inFlight = true := rfl

/-- A phase timer is not counted as a cycle on its way. -/
theorem inFlight_step (i : Nat) : (Callback.step i).inFlight = false := rfl

/-- The completion callback belongs to a cycle on its way. -/
theorem inFlight_complete (fn : String) (c : Nat) :
    (Callback.complete fn c).inFlight = true := rfl

/-- The caption timer is not counted as a cycle on its way. -/
theorem inFlight_caption : Callback.caption.inFlight = false := rfl

/-- In a session where files are chosen one cycle at a time, at most one cycle is on its way
and every pending callback holds the current counter value. -/
theorem serial_step (toLowerCase : String → String) (w w1 : World) (e : Event)
    (hP : w.timers.countP (fun t => t.cb.inFlight) ≤ 1
      ∧ ∀ t ∈ w.timers, ∀ c, t.cb.captured = some c → c = w.st.uploadCount)
    (hok : serial w e = true)
    (hs : step toLowerCase w e = some w1) :
    w1.timers.countP (fun t => t.cb.inFlight) ≤ 1
      ∧ ∀ t ∈ w1.timers, ∀ c, t.cb.captured = some c → c = w1.st.uploadCount := by
  obtain ⟨hn, hP⟩ := hP
  rcases step_cases toLowerCase w w1 e hs with
    ⟨d, -, rfl⟩ | ⟨t, rest, -, hp, rfl⟩ | ⟨file, d, rfl, rfl⟩ | ⟨-, rfl⟩ | ⟨fn, rfl, rfl⟩
  · exact ⟨hn, hP⟩
  · have hperm := popEarliest_perm w.timers t rest hp
    have ht : t ∈ w.timers := hperm.mem_iff.mpr (List.mem_cons_self _ _)
    have hrest : ∀ u ∈ rest, u ∈ w.timers :=
      fun u hu => hperm.mem_iff.mpr (List.mem_cons_of_mem _ hu)
    have hcount := hperm.countP_eq (fun t => t.cb.inFlight)
    rw [hcount, List.countP_cons] at hn
    obtain ⟨d, cb⟩ := t
    have hcb := hP _ ht
    cases cb with
    | loaded f c0 =>
      constructor
      · simpa [fireCallback, List.countP_append, List.countP_cons, inFlight_loaded, inFlight_start, inFlight_step, inFlight_complete,
          inFlight_caption] using hn
      · intro u hu c hc
        simp only [fireCallback, List.mem_append, List.mem_singleton] at hu
        rcases hu with hu | rfl
        · exact hP u (hrest u hu) c hc
        · exact hcb c (by simpa [Callback.captured] using hc)
    | start fn c0 =>
      constructor
      · simpa [fireCallback, startScanning, analysisSteps, List.enum, List.enumFrom,
          List.countP_append, List.countP_cons, inFlight_loaded, inFlight_start, inFlight_step, inFlight_complete,
          inFlight_caption] using hn
      · intro u hu c hc
        simp only [fireCallback, startScanning, List.mem_append, List.mem_singleton,
          List.mem_map] at hu
        rcases hu with (hu | ⟨a, -, rfl⟩) | rfl
        · exact hP u (hrest u hu) c hc
        · simp [Callback.captured] at hc
        · exact hcb c (by simpa [Callback.captured] using hc)
    | step i =>
      constructor
      · simp only [fireCallback]
        exact le_trans (Nat.le_add_right _ _) hn
      · intro u hu c hc
        simp only [fireCallback] at hu
        exact hP u (hrest u hu) c hc
    | complete fn c0 =>
      have hz : rest.countP (fun t => t.cb.inFlight) = 0 := by
        simp only [inFlight_complete, if_true] at hn
        omega
      constructor
      · simp [fireCallback, List.countP_append, List.countP_cons, inFlight_loaded, inFlight_start, inFlight_step, inFlight_complete,
          inFlight_caption, hz]
      · intro u hu c hc
        simp only [fireCallback, List.mem_append, List.mem_singleton] at hu
        rcases hu with hu | rfl
        · have := List.countP_eq_zero.mp hz u hu
          exact absurd (inFlight_of_captured u.cb c hc) (by simpa using this)
        · simp [Callback.captured] at hc
    | caption =>
      constructor
      · simp only [fireCallback]
        exact le_trans (Nat.le_add_right _ _) hn
      · intro u hu c hc
        simp only [fireCallback] at hu
        exact hP u (hrest u hu) c hc
  · cases file with
    | none => exact ⟨hn, hP⟩
    | some f =>
      have hz : w.timers.countP (fun t => t.cb.inFlight) = 0 := by
        apply List.countP_eq_zero.mpr
        intro u hu
        simp only [serial, List.all_eq_true] at hok
        simpa using hok u hu
      constructor
      · simp [handleImageUpload, List.countP_append, List.countP_cons, inFlight_loaded, inFlight_start, inFlight_step, inFlight_complete,
          inFlight_caption, hz]
      · intro u hu c hc
        simp only [handleImageUpload, List.mem_append, List.mem_singleton] at hu
        rcases hu with hu | rfl
        · exact hP u hu c hc
        · simp only [Callback.captured, Option.some.injEq] at hc
          exact hc.symm
  · exact ⟨hn, hP⟩
  · have hz : w.timers.countP (fun t => t.cb.inFlight) = 0 := by
      apply List.countP_eq_zero.mpr
      intro u hu
      simp only [serial, List.all_eq_true] at hok
      simpa using hok u hu
    constructor
    · simp [startScanning, analysisSteps, List.enum, List.enumFrom,
        List.countP_append, List.countP_cons, inFlight_loaded, inFlight_start, inFlight_step, inFlight_complete,
          inFlight_caption, hz]
    · intro u hu c hc
      simp only [startScanning, List.mem_append, List.mem_singleton, List.mem_map] at hu
      rcases hu with (hu | ⟨a, -, rfl⟩) | rfl
      · exact hP u hu c hc
      · simp [Callback.captured] at hc
      · simp only [Callback.captured, Option.some.injEq] at hc
        exact hc.symm

/-- Claim C4, refuted as stated. "holiday.png" and "photo.jpg" are chosen before the first has
been read, both while the counter is 0. The first completion raises the counter to 1. The
completion of "photo.jpg" then stores `determineResult` of the counter value 0 held in its
closure, the ai-generated record, and not that of the counter value 1 at the moment of
classification, the not-ai record. -/
theorem completion_reads_closure_counter :
    ∃ w w1 rest,
      runWith asciiLower offered initial (overlapEvents ++ List.replicate 9 Event.fire) = some w
      ∧ w.st.uploadCount = 1
      ∧ popEarliest w.timers = some (⟨6560, Callback.complete "photo.jpg" 0⟩, rest)
      ∧ step asciiLower w Event.fire = some w1
      ∧ w1.st.result
          = some { type := "ai-generated", label := "AI Generated Detected", confidence := 94 }
      ∧ determineResult asciiLower w.st.uploadCount "photo.jpg"
          = { type := "not-ai", label := "Not AI Generated", confidence := 91 }
      ∧ w1.st.result ≠ some (determineResult asciiLower w.st.uploadCount "photo.jpg")
      ∧ w1.st.uploadCount = 2 :=
  ⟨{ st := { selectedImage := some photo.dataUrl, isScanning := false,
             result := some { type := "ai-generated", label := "AI Generated Detected",
                              confidence := 94 },
             currentStep := 4, showCaption := false, uploadCount := 1 },
     now := 6550,
     timers := [⟨6560, Callback.complete "photo.jpg" 0⟩, ⟨7550, Callback.caption⟩] },
   { st := { selectedImage := some photo.dataUrl, isScanning := false,
             result := some { type := "ai-generated", label := "AI Generated Detected",
                              confidence := 94 },
             currentStep := 4, showCaption := false, uploadCount := 2 },
     now := 6560,
     timers := [⟨7550, Callback.caption⟩, ⟨7560, Callback.caption⟩] },
   [⟨7550, Callback.caption⟩],
   by decide, by decide, by decide, by decide, by decide, by decide, by decide, by decide⟩

/-- Claim C4, amended. In every reachable state in which a completion callback is the next
timer, it fires and stores `determineResult` of the file name and of the counter value held
in its closure (the value at the time the file was chosen), which never exceeds the current
value, and the counter becomes the current value plus one. In a session in which a file is
chosen only when no earlier cycle is on its way, the value in the closure is the counter's
value at the moment of classification. -/
theorem completion_stores_result (toLowerCase : String → String) (es : List Event) (w : World)
    (due : Nat) (filename : String) (captured : Nat) (rest : List Timer)
    (hrun : run toLowerCase initial es = some w)
    (hpop : popEarliest w.timers = some (⟨due, Callback.complete filename captured⟩, rest)) :
    ∃ w1, step toLowerCase w Event.fire = some w1
      ∧ w1.st.result = some (determineResult toLowerCase captured filename)
      ∧ w1.st.uploadCount = w.st.uploadCount + 1
      ∧ captured ≤ w.st.uploadCount
      ∧ (runWith toLowerCase serial initial es = some w → captured = w.st.uploadCount) := by
  have hmem : (⟨due, Callback.complete filename captured⟩ : Timer) ∈ w.timers :=
    (popEarliest_perm w.timers _ rest hpop).mem_iff.mpr (List.mem_cons_self _ _)
  refine ⟨fireCallback toLowerCase (Callback.complete filename captured)
    { w with now := max w.now due, timers := rest }, by simp only [step, hpop], rfl, rfl, ?_, ?_⟩
  · exact runWith_preserves toLowerCase (fun _ _ => true)
      (fun x => ∀ t ∈ x.timers, ∀ c, t.cb.captured = some c → c ≤ x.st.uploadCount)
      (fun x e x1 hx _ hs => captured_le_step toLowerCase x x1 e hx hs)
      es initial w (by simp [initial]) hrun _ hmem captured rfl
  · intro hser
    exact (runWith_preserves toLowerCase serial
      (fun x => x.timers.countP (fun t => t.cb.inFlight) ≤ 1
        ∧ ∀ t ∈ x.timers, ∀ c, t.cb.captured = some c → c = x.st.uploadCount)
      (fun x e x1 hx hok hs => serial_step toLowerCase x x1 e hx hok hs)
      es initial w (by simp [initial]) hser).2 _ hmem captured rfl

/-- The session of the spec's example: "photo.jpg" is the second cycle and completes while the
counter is 1; the not-ai record with confidence 91 is stored and the counter becomes 2. -/
theorem completion_stores_result_witness :
    ∃ w, run asciiLower initial secondCycleEvents = some w
      ∧ runWith asciiLower serial initial secondCycleEvents = some w
      ∧ w.st.uploadCount = 1
      ∧ determineResult asciiLower 1 "photo.jpg"
          = { type := "not-ai", label := "Not AI Generated", confidence := 91 }
      ∧ ∃ w1, step asciiLower w Event.fire = some w1
        ∧ w1.st.result = some (determineResult asciiLower 1 "photo.jpg")
        ∧ w1.st.uploadCount = w.st.uploadCount + 1
        ∧ 1 ≤ w.st.uploadCount
        ∧ (runWith asciiLower serial initial secondCycleEvents = some w
            → 1 = w.st.uploadCount) :=
  ⟨{ st := { selectedImage := some photo.dataUrl, isScanning := true, result := none,
             currentStep := 4, showCaption := true, uploadCount := 1 },
     now := 11700, timers := [⟨13200, Callback.complete "photo.jpg" 1⟩] },
   by decide, by decide, by decide, by decide,
   completion_stores_result asciiLower secondCycleEvents _ 13200 "photo.jpg" 1 []
     (by decide) (by decide)⟩

end AuthenticityChecker
